import Mathlib

/-
  Verification of the Voldemort C++ binding VectorClock
  (src/bindings/cpp/src/include/VectorClock.h).

  The repository ships only the interface header; the operation bodies
  (compare, merge, increment, the validating constructor) are not present
  under src/, so they are modelled from the specification document, faithful
  to its words.  The outcome rule written in the header's doc comment for the
  static compare (lines 79-91) is embedded separately as `compareDoc`.
-/

namespace Voldemort

/-- Modelled from the spec: the `Occurred` result enumeration of
`Version.h` (not under src/).  The spec lists BEFORE, AFTER, CONCURRENT and
requires the identical-clocks case to be exposed "distinctly from the three
dominance outcomes, e.g., as a fourth state"; we take that fourth state,
named `EQUAL`. -/
inductive Occurred where
  | BEFORE
  | AFTER
  | CONCURRENT
  | EQUAL
  deriving DecidableEq, Repr

/-- The VectorClock data model from the header: a sparse ordered sequence of
(nodeId : short, counter : uint64) pairs plus a 64-bit timestamp.  NodeIds
are embedded as `Int` (16-bit signed range is a wire-format constraint),
counters and the timestamp as `Nat`. -/
structure VectorClock where
  versions : List (Int × Nat)
  timestamp : Nat
  deriving DecidableEq, Repr

/-- The counter a sparse entry list assigns to a node: the counter of the
first entry for that nodeId, and the implicit 0 when the node is absent. -/
def counterOf : List (Int × Nat) → Int → Nat
  | [], _ => 0
  | p :: rest, n => if p.1 = n then p.2 else counterOf rest n

/-- The counter a clock assigns to a node (0 for absent nodes). -/
def VectorClock.getCounter (c : VectorClock) (n : Int) : Nat :=
  counterOf c.versions n

/-- The nodeIds present in a clock, in entry order. -/
def VectorClock.nodeIds (c : VectorClock) : List Int :=
  c.versions.map Prod.fst

/-- The canonical-entries invariant of the data model: entries are sorted by
nodeId strictly ascending (hence unique by nodeId). -/
def CanonicalEntries (l : List (Int × Nat)) : Prop :=
  List.Chain' (fun p q => p.1 < q.1) l

instance instDecCanonical : (l : List (Int × Nat)) → Decidable (CanonicalEntries l)
  | [] => isTrue List.chain'_nil
  | [p] => isTrue (List.chain'_singleton p)
  | p :: q :: rest =>
    haveI : Decidable (CanonicalEntries (q :: rest)) := instDecCanonical (q :: rest)
    decidable_of_iff (p.1 < q.1 ∧ CanonicalEntries (q :: rest))
      (Iff.symm (@List.chain'_cons (Int × Nat) (fun a b => a.1 < b.1) p q rest))

/-- Modelled from the spec: the boolean tracked by the comparison scan —
`hasGreater a b` is true iff some nodeId present in either clock has
a's counter strictly greater than b's (absent nodeIds counting as 0). -/
def hasGreater (a b : VectorClock) : Bool :=
  (a.nodeIds ++ b.nodeIds).any (fun n => decide (b.getCounter n < a.getCounter n))

/-- Modelled from the spec: `VectorClock::compare(v1, v2)` (the static
comparison, whose body is not under src/).  Scans the union of nodeIds
present in either clock, tracking `selfHasGreater` and `otherHasGreater`;
returns CONCURRENT when both hold, AFTER when only self dominates, BEFORE
when only other dominates, and the explicit fourth state `EQUAL` when the
clocks agree on every counter. -/
def VectorClock.compare (a b : VectorClock) : Occurred :=
  let selfHasGreater := hasGreater a b
  let otherHasGreater := hasGreater b a
  if selfHasGreater && otherHasGreater then Occurred.CONCURRENT
  else if selfHasGreater then Occurred.AFTER
  else if otherHasGreater then Occurred.BEFORE
  else Occurred.EQUAL

/-- Modelled from the spec: `increment(nodeId)` on the sorted sparse entry
list — the entry for the node is set to its current value + 1, inserted
fresh at 1 if absent; all other entries are unchanged. -/
def incrementEntries : List (Int × Nat) → Int → List (Int × Nat)
  | [], n => [(n, 1)]
  | p :: rest, n =>
    if n < p.1 then (n, 1) :: p :: rest
    else if p.1 = n then (p.1, p.2 + 1) :: rest
    else p :: incrementEntries rest n

/-- Modelled from the spec: `increment(nodeId)` returns the successor clock
after a write mastered by the node, with the timestamp updated to the
current time (passed in as `now`, since the wall clock is external). -/
def VectorClock.increment (c : VectorClock) (n : Int) (now : Nat) : VectorClock :=
  { versions := incrementEntries c.versions n, timestamp := now }

/-- Modelled from the spec: the entry list of `merge` — a two-pointer walk
over both sorted sparse lists taking the pointwise maximum of counters. -/
def mergeEntries : List (Int × Nat) → List (Int × Nat) → List (Int × Nat)
  | [], ys => ys
  | x :: xs, [] => x :: xs
  | x :: xs, y :: ys =>
    if x.1 < y.1 then x :: mergeEntries xs (y :: ys)
    else if y.1 < x.1 then y :: mergeEntries (x :: xs) ys
    else (x.1, max x.2 y.2) :: mergeEntries xs ys

/-- Modelled from the spec: `merge(other)` produces a new clock whose entry
for each nodeId is the maximum of the two inputs' counters for that nodeId,
with timestamp the maximum of the two inputs' timestamps; being a pure
function of its arguments, it mutates neither input. -/
def VectorClock.merge (a b : VectorClock) : VectorClock :=
  { versions := mergeEntries a.versions b.versions
    timestamp := max a.timestamp b.timestamp }

/-- Modelled from the spec: the error conditions of the error-handling
design — `InvalidClockState` for malformed construction input and
`IncompatibleVersionType` for comparing against a non-VectorClock version. -/
inductive VoldemortError where
  | InvalidClockState
  | IncompatibleVersionType
  deriving DecidableEq, Repr

/-- Whether an entry list holds two entries with the same nodeId. -/
def hasDuplicateNode : List (Int × Nat) → Bool
  | [] => false
  | p :: rest => rest.any (fun q => decide (q.1 = p.1)) || hasDuplicateNode rest

/-- Insert one entry into an entry list sorted by nodeId ascending. -/
def insertEntry (p : Int × Nat) : List (Int × Nat) → List (Int × Nat)
  | [] => [p]
  | q :: rest => if p.1 ≤ q.1 then p :: q :: rest else q :: insertEntry p rest

/-- Insertion sort of an entry list by nodeId ascending. -/
def sortEntries : List (Int × Nat) → List (Int × Nat)
  | [] => []
  | p :: rest => insertEntry p (sortEntries rest)

/-- Modelled from the spec: canonicalization performed by the validating
constructor — zero-counter entries are dropped and the rest sorted by
nodeId. -/
def canonicalize (l : List (Int × Nat)) : List (Int × Nat) :=
  sortEntries (l.filter (fun p => decide (p.2 ≠ 0)))

/-- Modelled from the spec: the validating constructor
`VectorClock(versions, timestamp)` (body not under src/) — the supplied
sequence is copied and canonicalized; duplicate nodeIds, or a counter that
does not fit uint64, fail with `InvalidClockState` at construction time. -/
def makeVectorClock (l : List (Int × Nat)) (timestamp : Nat) :
    Except VoldemortError VectorClock :=
  if hasDuplicateNode l then Except.error VoldemortError.InvalidClockState
  else if l.any (fun p => decide (2 ^ 64 ≤ p.2)) then
    Except.error VoldemortError.InvalidClockState
  else Except.ok { versions := canonicalize l, timestamp := timestamp }

/-- Modelled from the spec: the generic `Version` abstraction.  VectorClock
is one concrete representation; `otherRep` stands for any version instance
whose concrete representation is not a VectorClock. -/
inductive Version where
  | vectorClock (vc : VectorClock)
  | otherRep (tag : Nat)

/-- Modelled from the spec: the instance method `compare(Version* v)` — a
version that is not a VectorClock is a type mismatch and fails with
`IncompatibleVersionType`; it is never coerced. -/
def VectorClock.compareVersion (c : VectorClock) (v : Version) :
    Except VoldemortError Occurred :=
  match v with
  | Version.vectorClock d => Except.ok (VectorClock.compare c d)
  | Version.otherRep _ => Except.error VoldemortError.IncompatibleVersionType

/-- The outcome rule written in the header's doc comment for the static
compare (VectorClock.h lines 79-91): clock 1 is BEFORE clock 2 if there
exists an i such that c1(i) <= c2(i) and there does not exist a j such that
c1(j) > c2(j); clock 1 is CONCURRENT to clock 2 if there exist i, j such
that c1(i) < c2(i) and c1(j) > c2(j); clock 1 is AFTER clock 2 otherwise.
The indices range over the nodeIds present in either clock. -/
def compareDoc (c1 c2 : VectorClock) : Occurred :=
  let ids := c1.nodeIds ++ c2.nodeIds
  if ids.any (fun i => decide (c1.getCounter i ≤ c2.getCounter i)) &&
      !(ids.any (fun j => decide (c2.getCounter j < c1.getCounter j))) then
    Occurred.BEFORE
  else if (ids.any (fun i => decide (c1.getCounter i < c2.getCounter i))) &&
      (ids.any (fun j => decide (c2.getCounter j < c1.getCounter j))) then
    Occurred.CONCURRENT
  else Occurred.AFTER

/-! ### Basic lemmas about the sparse counter lookup -/

/-- A node with a nonzero counter is present in the entry list. -/
theorem counterOf_pos_mem {l : List (Int × Nat)} {n : Int} (h : 0 < counterOf l n) :
    n ∈ l.map Prod.fst := by
  induction l with
  | nil => simp [counterOf] at h
  | cons p rest ih =>
    by_cases hp : p.1 = n
    · exact List.mem_map.mpr ⟨p, List.mem_cons_self p rest, hp⟩
    · rw [counterOf, if_neg hp] at h
      exact List.mem_cons_of_mem _ (ih h)

/-- The comparison boolean means exactly: some node (over all of Int, absent
ones counting as 0) has a strictly greater counter in the first clock. -/
theorem hasGreater_iff (a b : VectorClock) :
    hasGreater a b = true ↔ ∃ n : Int, b.getCounter n < a.getCounter n := by
  unfold hasGreater
  rw [List.any_eq_true]
  constructor
  · rintro ⟨n, _, hn⟩
    exact ⟨n, of_decide_eq_true hn⟩
  · rintro ⟨n, hn⟩
    refine ⟨n, ?_, decide_eq_true hn⟩
    have hpos : 0 < counterOf a.versions n := lt_of_le_of_lt (Nat.zero_le _) hn
    exact List.mem_append.mpr (Or.inl (counterOf_pos_mem hpos))

/-- Contrapositive form of `hasGreater_iff`. -/
theorem hasGreater_eq_false (a b : VectorClock) :
    hasGreater a b = false ↔ ¬∃ n : Int, b.getCounter n < a.getCounter n := by
  rw [← hasGreater_iff]
  cases hasGreater a b <;> simp

/-! ### Case analysis of the spec-modelled compare -/

theorem compare_eq_after (a b : VectorClock) :
    VectorClock.compare a b = Occurred.AFTER ↔
      hasGreater a b = true ∧ hasGreater b a = false := by
  cases h1 : hasGreater a b <;> cases h2 : hasGreater b a <;>
    simp [VectorClock.compare, h1, h2]

theorem compare_eq_before (a b : VectorClock) :
    VectorClock.compare a b = Occurred.BEFORE ↔
      hasGreater b a = true ∧ hasGreater a b = false := by
  cases h1 : hasGreater a b <;> cases h2 : hasGreater b a <;>
    simp [VectorClock.compare, h1, h2]

theorem compare_eq_concurrent (a b : VectorClock) :
    VectorClock.compare a b = Occurred.CONCURRENT ↔
      hasGreater a b = true ∧ hasGreater b a = true := by
  cases h1 : hasGreater a b <;> cases h2 : hasGreater b a <;>
    simp [VectorClock.compare, h1, h2]

/-- C1: compare(a,b) is computed over the union of nodeIds present in either
clock (absent nodeIds counting as 0) by tracking selfHasGreater and
otherHasGreater, and returns AFTER iff selfHasGreater and not
otherHasGreater, BEFORE iff otherHasGreater and not selfHasGreater, and
CONCURRENT iff both are true; in particular
compare({(1,2)}, {(1,1),(2,1)}) = CONCURRENT. -/
theorem compare_boolean_characterization :
    (∀ a b : VectorClock,
      (VectorClock.compare a b = Occurred.AFTER ↔
        (∃ n : Int, b.getCounter n < a.getCounter n) ∧
          ¬∃ n : Int, a.getCounter n < b.getCounter n) ∧
      (VectorClock.compare a b = Occurred.BEFORE ↔
        (∃ n : Int, a.getCounter n < b.getCounter n) ∧
          ¬∃ n : Int, b.getCounter n < a.getCounter n) ∧
      (VectorClock.compare a b = Occurred.CONCURRENT ↔
        (∃ n : Int, b.getCounter n < a.getCounter n) ∧
          ∃ n : Int, a.getCounter n < b.getCounter n)) ∧
    VectorClock.compare ⟨[(1, 2)], 0⟩ ⟨[(1, 1), (2, 1)], 0⟩ =
      Occurred.CONCURRENT := by
  refine ⟨fun a b => ⟨?_, ?_, ?_⟩, by decide⟩
  · rw [compare_eq_after, hasGreater_iff, hasGreater_eq_false]
  · rw [compare_eq_before, hasGreater_iff, hasGreater_eq_false]
  · rw [compare_eq_concurrent, hasGreater_iff, hasGreater_iff]

/-- Witness for C1 at the concrete clocks of scenario 1. -/
theorem compare_boolean_characterization_witness :
    VectorClock.compare ⟨[(1, 2)], 0⟩ ⟨[(1, 1), (2, 1)], 0⟩ =
      Occurred.CONCURRENT :=
  compare_boolean_characterization.2

/-- C2: compare(a,b) and compare(b,a) are exact inverses on the BEFORE/AFTER
axis and agree on CONCURRENT. -/
theorem compare_antisymmetry :
    ∀ a b : VectorClock,
      (VectorClock.compare a b = Occurred.AFTER ↔
        VectorClock.compare b a = Occurred.BEFORE) ∧
      (VectorClock.compare a b = Occurred.CONCURRENT ↔
        VectorClock.compare b a = Occurred.CONCURRENT) := by
  intro a b
  cases h1 : hasGreater a b <;> cases h2 : hasGreater b a <;>
    simp [VectorClock.compare, h1, h2]

/-- Witness for C2: a clock strictly above another compares AFTER one way and
BEFORE the other way. -/
theorem compare_antisymmetry_witness :
    VectorClock.compare ⟨[(1, 1)], 0⟩ ⟨[(1, 2)], 0⟩ = Occurred.BEFORE :=
  (compare_antisymmetry ⟨[(1, 2)], 0⟩ ⟨[(1, 1)], 0⟩).1.mp (by decide)

/-- C3: compare(a,a) is never CONCURRENT and never a strict BEFORE or strict
AFTER. -/
theorem compare_reflexive :
    ∀ a : VectorClock,
      VectorClock.compare a a ≠ Occurred.CONCURRENT ∧
      VectorClock.compare a a ≠ Occurred.BEFORE ∧
      VectorClock.compare a a ≠ Occurred.AFTER := by
  intro a
  have h : hasGreater a a = false := by
    rw [hasGreater_eq_false]
    rintro ⟨n, hn⟩
    exact lt_irrefl _ hn
  simp [VectorClock.compare, h]

/-- Witness for C3 at a concrete clock. -/
theorem compare_reflexive_witness :
    VectorClock.compare ⟨[(1, 2)], 0⟩ ⟨[(1, 2)], 0⟩ ≠ Occurred.CONCURRENT :=
  (compare_reflexive ⟨[(1, 2)], 0⟩).1

/-! ### Lemmas about canonical (sorted) entry lists -/

theorem canonical_tail {p : Int × Nat} {l : List (Int × Nat)}
    (h : CanonicalEntries (p :: l)) : CanonicalEntries l := by
  cases l with
  | nil => exact List.chain'_nil
  | cons q rest => exact (List.chain'_cons.mp h).2

theorem canonical_head_lt :
    ∀ (p : Int × Nat) (l : List (Int × Nat)), CanonicalEntries (p :: l) →
      ∀ q ∈ l, p.1 < q.1 := by
  intro p l
  induction l generalizing p with
  | nil => intro _ q hq; cases hq
  | cons r rest ih =>
    intro h q hq
    have hpr : p.1 < r.1 := (List.chain'_cons.mp h).1
    cases hq with
    | head => exact hpr
    | tail _ hq' => exact lt_trans hpr (ih r (List.chain'_cons.mp h).2 q hq')

theorem counterOf_eq_zero_of_forall_lt {l : List (Int × Nat)} {n : Int}
    (h : ∀ q ∈ l, n < q.1) : counterOf l n = 0 := by
  induction l with
  | nil => rfl
  | cons p rest ih =>
    have hp : p.1 ≠ n := by
      have := h p (List.mem_cons_self p rest)
      omega
    rw [counterOf, if_neg hp]
    exact ih fun q hq => h q (List.mem_cons_of_mem _ hq)

/-! ### Pointwise behaviour of increment on canonical lists -/

theorem counterOf_incrementEntries :
    ∀ (l : List (Int × Nat)) (n m : Int), CanonicalEntries l →
      counterOf (incrementEntries l n) m =
        if m = n then counterOf l n + 1 else counterOf l m := by
  intro l
  induction l with
  | nil =>
    intro n m _
    by_cases hmn : m = n
    · subst hmn; simp [incrementEntries, counterOf]
    · simp [incrementEntries, counterOf, hmn, Ne.symm hmn]
  | cons p rest ih =>
    intro n m h
    by_cases h1 : n < p.1
    · rw [incrementEntries, if_pos h1]
      by_cases hmn : m = n
      · subst hmn
        have habs : counterOf (p :: rest) m = 0 := by
          refine counterOf_eq_zero_of_forall_lt ?_
          intro q hq
          cases hq with
          | head => exact h1
          | tail _ hq' => exact lt_trans h1 (canonical_head_lt p rest h q hq')
        simp [counterOf] at habs ⊢
        simp [habs]
      · simp [counterOf, hmn, Ne.symm hmn]
    · by_cases h2 : p.1 = n
      · rw [incrementEntries, if_neg h1, if_pos h2]
        by_cases hmn : m = n
        · subst hmn; simp [counterOf, h2]
        · have hpm : ¬(p.1 = m) := fun hc => hmn (hc.symm.trans h2)
          simp [counterOf, hmn, hpm]
      · rw [incrementEntries, if_neg h1, if_neg h2]
        by_cases hmn : m = n
        · subst hmn
          simp [counterOf, h2, ih m m (canonical_tail h)]
        · by_cases hpm : p.1 = m
          · simp [counterOf, hpm, hmn]
          · simp [counterOf, hpm, hmn, ih n m (canonical_tail h)]

theorem getCounter_increment (c : VectorClock) (n : Int) (now : Nat)
    (h : CanonicalEntries c.versions) (m : Int) :
    (c.increment n now).getCounter m =
      if m = n then c.getCounter n + 1 else c.getCounter m :=
  counterOf_incrementEntries c.versions n m h

/-- C4: compare(increment(c, n), c) = AFTER. -/
theorem increment_advances :
    ∀ (c : VectorClock) (n : Int) (now : Nat), CanonicalEntries c.versions →
      VectorClock.compare (c.increment n now) c = Occurred.AFTER := by
  intro c n now h
  rw [compare_eq_after]
  constructor
  · rw [hasGreater_iff]
    refine ⟨n, ?_⟩
    rw [getCounter_increment c n now h n, if_pos rfl]
    omega
  · rw [hasGreater_eq_false]
    rintro ⟨m, hm⟩
    rw [getCounter_increment c n now h m] at hm
    by_cases hmn : m = n
    · subst hmn; simp at hm
    · rw [if_neg hmn] at hm; exact lt_irrefl _ hm

/-- Witness for C4 at a concrete canonical clock. -/
theorem increment_advances_witness :
    VectorClock.compare (VectorClock.increment ⟨[(1, 2)], 0⟩ 1 3) ⟨[(1, 2)], 0⟩ =
      Occurred.AFTER :=
  increment_advances ⟨[(1, 2)], 0⟩ 1 3 (by decide)

/-- C6: increment(c, n) sets the entry for n to its current value + 1
(fresh at 1 if absent) and leaves every other nodeId's counter unchanged;
in particular increment({}, 5) = {(5,1)} and increment({(5,1)}, 5) =
{(5,2)}. -/
theorem increment_frame :
    (∀ (c : VectorClock) (n : Int) (now : Nat), CanonicalEntries c.versions →
      (c.increment n now).getCounter n = c.getCounter n + 1 ∧
      ∀ m : Int, m ≠ n → (c.increment n now).getCounter m = c.getCounter m) ∧
    (VectorClock.increment ⟨[], 0⟩ 5 9).versions = [(5, 1)] ∧
    (VectorClock.increment ⟨[(5, 1)], 9⟩ 5 11).versions = [(5, 2)] := by
  refine ⟨fun c n now h => ⟨?_, fun m hm => ?_⟩, by decide, by decide⟩
  · rw [getCounter_increment c n now h n, if_pos rfl]
  · rw [getCounter_increment c n now h m, if_neg hm]

/-- Witness for C6 at a concrete canonical clock. -/
theorem increment_frame_witness :
    (VectorClock.increment ⟨[(3, 4), (5, 1)], 0⟩ 5 9).getCounter 3 =
      (⟨[(3, 4), (5, 1)], 0⟩ : VectorClock).getCounter 3 :=
  (increment_frame.1 ⟨[(3, 4), (5, 1)], 0⟩ 5 9 (by decide)).2 3 (by decide)

/-! ### Pointwise behaviour of merge on canonical lists -/

theorem counterOf_mergeEntries :
    ∀ xs ys : List (Int × Nat), CanonicalEntries xs → CanonicalEntries ys →
      ∀ n : Int,
        counterOf (mergeEntries xs ys) n =
          max (counterOf xs n) (counterOf ys n) := by
  intro xs
  induction xs with
  | nil => intro ys _ _ n; simp [mergeEntries, counterOf]
  | cons x xs ihx =>
    intro ys
    induction ys with
    | nil => intro _ _ n; simp [mergeEntries, counterOf]
    | cons y ys ihy =>
      intro hx hy n
      simp only [mergeEntries]
      by_cases h1 : x.1 < y.1
      · rw [if_pos h1]
        by_cases hxn : x.1 = n
        · have hz : counterOf (y :: ys) n = 0 := by
            refine counterOf_eq_zero_of_forall_lt ?_
            intro q hq
            cases hq with
            | head => omega
            | tail _ hq' =>
              have := canonical_head_lt y ys hy q hq'
              omega
          simp [counterOf, hxn] at hz ⊢
          simp [hz]
        · simp [counterOf, hxn, ihx (y :: ys) (canonical_tail hx) hy n]
      · by_cases h2 : y.1 < x.1
        · rw [if_neg h1, if_pos h2]
          by_cases hyn : y.1 = n
          · have hz : counterOf (x :: xs) n = 0 := by
              refine counterOf_eq_zero_of_forall_lt ?_
              intro q hq
              cases hq with
              | head => omega
              | tail _ hq' =>
                have := canonical_head_lt x xs hx q hq'
                omega
            simp [counterOf, hyn] at hz ⊢
            simp [hz]
          · simp [counterOf, hyn, ihy hx (canonical_tail hy) n]
        · have heq : x.1 = y.1 := by omega
          rw [if_neg h1, if_neg h2]
          by_cases hxn : x.1 = n
          · have hyn : y.1 = n := heq ▸ hxn
            simp [counterOf, hxn, hyn]
          · have hyn : ¬(y.1 = n) := fun hc => hxn (heq ▸ hc)
            simp [counterOf, hxn, hyn,
              ihx ys (canonical_tail hx) (canonical_tail hy) n]

/-- C5: merge(a, b) produces a clock whose entry for each nodeId is the
pointwise maximum of the two inputs' counters (implicit zero for absent
nodes), with timestamp the maximum of the two inputs' timestamps; being a
pure function it mutates neither input; in particular
merge({(1,3)}, {(1,1),(2,2)}) = {(1,3),(2,2)}. -/
theorem merge_pointwise_max :
    (∀ a b : VectorClock, CanonicalEntries a.versions →
      CanonicalEntries b.versions →
      (∀ n : Int,
        (a.merge b).getCounter n = max (a.getCounter n) (b.getCounter n)) ∧
      (a.merge b).timestamp = max a.timestamp b.timestamp) ∧
    (VectorClock.merge ⟨[(1, 3)], 5⟩ ⟨[(1, 1), (2, 2)], 7⟩).versions =
      [(1, 3), (2, 2)] := by
  refine ⟨fun a b ha hb => ⟨fun n => ?_, rfl⟩,
    by simp [VectorClock.merge, mergeEntries]⟩
  exact counterOf_mergeEntries a.versions b.versions ha hb n

/-- Witness for C5 at the concrete clocks of scenario 4. -/
theorem merge_pointwise_max_witness :
    (VectorClock.merge ⟨[(1, 3)], 5⟩ ⟨[(1, 1), (2, 2)], 7⟩).getCounter 2 =
      max ((⟨[(1, 3)], 5⟩ : VectorClock).getCounter 2)
        ((⟨[(1, 1), (2, 2)], 7⟩ : VectorClock).getCounter 2) :=
  (merge_pointwise_max.1 ⟨[(1, 3)], 5⟩ ⟨[(1, 1), (2, 2)], 7⟩
    (by decide) (by decide)).1 2

/-! ### Duplicate detection and construction errors -/

theorem hasDuplicateNode_of_split :
    ∀ (l1 l2 l3 : List (Int × Nat)) (n : Int) (k1 k2 : Nat),
      hasDuplicateNode (l1 ++ (n, k1) :: l2 ++ (n, k2) :: l3) = true := by
  intro l1
  induction l1 with
  | nil =>
    intro l2 l3 n k1 k2
    rw [List.nil_append]
    simp only [hasDuplicateNode, Bool.or_eq_true, List.any_eq_true]
    exact Or.inl ⟨(n, k2), by simp, by simp⟩
  | cons p l1 ih =>
    intro l2 l3 n k1 k2
    rw [List.cons_append]
    simp only [hasDuplicateNode, Bool.or_eq_true]
    exact Or.inr (ih l2 l3 n k1 k2)

/-- C7: constructing a VectorClock from an entry list containing two entries
with the same nodeId fails with InvalidClockState, for every timestamp. -/
theorem duplicate_rejected :
    ∀ (l1 l2 l3 : List (Int × Nat)) (n : Int) (k1 k2 ts : Nat),
      makeVectorClock (l1 ++ (n, k1) :: l2 ++ (n, k2) :: l3) ts =
        Except.error VoldemortError.InvalidClockState := by
  intro l1 l2 l3 n k1 k2 ts
  rw [makeVectorClock, if_pos]
  exact hasDuplicateNode_of_split l1 l2 l3 n k1 k2

/-- Witness for C7 at a concrete duplicated entry list. -/
theorem duplicate_rejected_witness :
    makeVectorClock [(1, 2), (1, 3)] 0 =
      Except.error VoldemortError.InvalidClockState :=
  duplicate_rejected [] [] [] 1 2 3 0

/-- C8: comparing a clock against a Version whose concrete representation is
not a VectorClock fails with IncompatibleVersionType and never returns an
Occurred verdict. -/
theorem incompatible_version_rejected :
    ∀ (c : VectorClock) (t : Nat),
      c.compareVersion (Version.otherRep t) =
        Except.error VoldemortError.IncompatibleVersionType ∧
      ∀ o : Occurred, c.compareVersion (Version.otherRep t) ≠ Except.ok o := by
  intro c t
  exact ⟨rfl, fun o h => Except.noConfusion h⟩

/-- Witness for C8 at a concrete clock and foreign version. -/
theorem incompatible_version_rejected_witness :
    VectorClock.compareVersion ⟨[(1, 2)], 0⟩ (Version.otherRep 7) =
      Except.error VoldemortError.IncompatibleVersionType :=
  (incompatible_version_rejected ⟨[(1, 2)], 0⟩ 7).1

/-! ### Removing an entry preserves the construction checks -/

theorem any_removed (f : Int × Nat → Bool) :
    ∀ (l1 l2 : List (Int × Nat)) (p : Int × Nat),
      (l1 ++ p :: l2).any f = false → (l1 ++ l2).any f = false := by
  intro l1 l2 p h
  rw [List.any_eq_false] at h ⊢
  intro x hx
  refine h x ?_
  rcases List.mem_append.mp hx with h' | h'
  · exact List.mem_append.mpr (Or.inl h')
  · exact List.mem_append.mpr (Or.inr (List.mem_cons_of_mem _ h'))

theorem hasDuplicateNode_removed :
    ∀ (l1 l2 : List (Int × Nat)) (p : Int × Nat),
      hasDuplicateNode (l1 ++ p :: l2) = false →
        hasDuplicateNode (l1 ++ l2) = false := by
  intro l1
  induction l1 with
  | nil =>
    intro l2 p h
    rw [List.nil_append] at h ⊢
    simp only [hasDuplicateNode, Bool.or_eq_false_iff] at h
    exact h.2
  | cons q l1 ih =>
    intro l2 p h
    rw [List.cons_append] at h ⊢
    simp only [hasDuplicateNode, Bool.or_eq_false_iff] at h ⊢
    exact ⟨any_removed _ l1 l2 p h.1, ih l2 p h.2⟩

theorem canonicalize_drop_zero (l1 l2 : List (Int × Nat)) (n : Int) :
    canonicalize (l1 ++ (n, 0) :: l2) = canonicalize (l1 ++ l2) := by
  rw [canonicalize, canonicalize, List.filter_append, List.filter_append,
    List.filter_cons]
  simp

theorem mem_insertEntry {x p : Int × Nat} :
    ∀ l : List (Int × Nat), x ∈ insertEntry p l → x = p ∨ x ∈ l := by
  intro l
  induction l with
  | nil =>
    intro h
    simp [insertEntry] at h
    exact Or.inl h
  | cons q rest ih =>
    intro h
    rw [insertEntry] at h
    by_cases hc : p.1 ≤ q.1
    · rw [if_pos hc] at h
      exact List.mem_cons.mp h
    · rw [if_neg hc] at h
      rcases List.mem_cons.mp h with h' | h'
      · exact Or.inr (h' ▸ List.mem_cons_self q rest)
      · rcases ih h' with h'' | h''
        · exact Or.inl h''
        · exact Or.inr (List.mem_cons_of_mem _ h'')

theorem mem_sortEntries {x : Int × Nat} :
    ∀ l : List (Int × Nat), x ∈ sortEntries l → x ∈ l := by
  intro l
  induction l with
  | nil => intro h; simp [sortEntries] at h
  | cons p rest ih =>
    intro h
    rcases mem_insertEntry _ h with h' | h'
    · exact h' ▸ List.mem_cons_self p rest
    · exact List.mem_cons_of_mem _ (ih h')

/-- C9: construction from a list with a zero-counter entry yields the same
clock as construction from the list without it, and no constructed clock
stores a counter of zero. -/
theorem zero_entry_canonicalized :
    (∀ (l1 l2 : List (Int × Nat)) (n : Int) (ts : Nat) (c : VectorClock),
        makeVectorClock (l1 ++ (n, 0) :: l2) ts = Except.ok c →
        makeVectorClock (l1 ++ l2) ts = Except.ok c) ∧
    (∀ (l : List (Int × Nat)) (ts : Nat) (c : VectorClock),
        makeVectorClock l ts = Except.ok c → ∀ p ∈ c.versions, p.2 ≠ 0) := by
  constructor
  · intro l1 l2 n ts c h
    rw [makeVectorClock] at h
    split at h
    next => cases h
    next hdup =>
      split at h
      next => cases h
      next hrange =>
        have hd1 : hasDuplicateNode (l1 ++ (n, 0) :: l2) = false :=
          Bool.not_eq_true _ ▸ hdup
        have hr1 : (l1 ++ (n, 0) :: l2).any (fun p => decide (2 ^ 64 ≤ p.2)) =
            false := Bool.not_eq_true _ ▸ hrange
        have hd2 := hasDuplicateNode_removed l1 l2 (n, 0) hd1
        have hr2 := any_removed _ l1 l2 (n, 0) hr1
        rw [makeVectorClock, if_neg (by simp only [hd2]; exact Bool.false_ne_true),
          if_neg (by simp only [hr2]; exact Bool.false_ne_true),
          ← h, canonicalize_drop_zero]
  · intro l ts c h p hp
    rw [makeVectorClock] at h
    split at h
    next => cases h
    next =>
      split at h
      next => cases h
      next =>
        have hv : c.versions = canonicalize l := by
          injection h with h'
          rw [← h']
        rw [hv, canonicalize] at hp
        have hm : p ∈ List.filter (fun q => decide (q.2 ≠ 0)) l :=
          mem_sortEntries _ hp
        have hb := (List.mem_filter.mp hm).2
        exact of_decide_eq_true hb

/-- Witness for C9: dropping the zero entry of a concrete list leaves the
constructed clock unchanged. -/
theorem zero_entry_canonicalized_witness :
    makeVectorClock [(2, 3)] 4 = Except.ok ⟨[(2, 3)], 4⟩ :=
  zero_entry_canonicalized.1 [(2, 3)] [] 1 4 ⟨[(2, 3)], 4⟩ rfl

/-! ### The comparison rule as documented in the header -/

/-- C10: on clocks with identical canonical entry sequences, the outcome rule
documented in the header for the static compare returns BEFORE when the
shared entry sequence is non-empty and AFTER when both clocks are empty;
identical clocks are never reported CONCURRENT and the rule has no distinct
fourth outcome for equality. -/
theorem compareDoc_identical :
    ∀ a b : VectorClock, a.versions = b.versions →
      (a.versions ≠ [] → compareDoc a b = Occurred.BEFORE) ∧
      (a.versions = [] → compareDoc a b = Occurred.AFTER) ∧
      compareDoc a b ≠ Occurred.CONCURRENT ∧
      compareDoc a b ≠ Occurred.EQUAL := by
  intro a b h
  have hg : ∀ i : Int, b.getCounter i = a.getCounter i := fun i => by
    rw [VectorClock.getCounter, VectorClock.getCounter, h]
  have h2 : ((a.nodeIds ++ b.nodeIds).any
      (fun j => decide (b.getCounter j < a.getCounter j))) = false := by
    rw [List.any_eq_false]
    intro j _
    simp [hg j]
  by_cases hne : a.versions = []
  · have hb : b.versions = [] := h ▸ hne
    have hids : a.nodeIds ++ b.nodeIds = [] := by
      rw [VectorClock.nodeIds, VectorClock.nodeIds, hne, hb]
      rfl
    refine ⟨fun hc => absurd hne hc, fun _ => ?_, ?_, ?_⟩ <;>
      simp [compareDoc, hids]
  · have h1 : ((a.nodeIds ++ b.nodeIds).any
        (fun i => decide (a.getCounter i ≤ b.getCounter i))) = true := by
      rw [List.any_eq_true]
      obtain ⟨p, hp⟩ := List.exists_mem_of_ne_nil a.versions hne
      refine ⟨p.1, List.mem_append.mpr (Or.inl ?_), by simp [hg]⟩
      exact List.mem_map_of_mem Prod.fst hp
    have hbefore : compareDoc a b = Occurred.BEFORE := by
      rw [compareDoc]
      simp only [h1, h2]
      rfl
    exact ⟨fun _ => hbefore, fun hc => absurd hc hne,
      by rw [hbefore]; exact fun hc => Occurred.noConfusion hc,
      by rw [hbefore]; exact fun hc => Occurred.noConfusion hc⟩

/-- Witness for C10: a concrete non-empty clock compared with an identical
one yields BEFORE under the documented rule. -/
theorem compareDoc_identical_witness :
    compareDoc ⟨[(1, 2)], 0⟩ ⟨[(1, 2)], 3⟩ = Occurred.BEFORE :=
  (compareDoc_identical ⟨[(1, 2)], 0⟩ ⟨[(1, 2)], 3⟩ rfl).1 (by simp)

end Voldemort
